import Mathlib

/-!
Shallow embedding of `scripts/generate_pdf.py`: the markdown block parser
(`parse_markdown`), the block-to-drawable renderer loop of `build_pdf`,
and the CLI entry point `main`.

Lines are Lean `String`s; Python's whitespace handling (`str.strip`,
`str.rstrip`, `str.splitlines`) and the regular expressions of the source
are modelled character-exactly on `List Char`.
-/

/-- The code points Python's `str.isspace()` — and hence `str.strip()`,
`str.rstrip()` and `\s` in `re` patterns over `str` — treats as
whitespace. -/
def isSpaceCode (n : Nat) : Bool :=
  (0x9 ≤ n && n ≤ 0xd) || (0x1c ≤ n && n ≤ 0x20) || n == 0x85 || n == 0xa0 ||
  n == 0x1680 || (0x2000 ≤ n && n ≤ 0x200a) || n == 0x2028 || n == 0x2029 ||
  n == 0x202f || n == 0x205f || n == 0x3000

/-- The whitespace test of Python's `str.strip()` / `str.rstrip()` / `\s`
on one character. -/
def isPySpace (c : Char) : Bool := isSpaceCode c.toNat

/-- Python `str.lstrip()` on a character list. -/
def lstripChars (cs : List Char) : List Char := cs.dropWhile isPySpace

/-- Python `str.rstrip()` on a character list. -/
def rstripChars (cs : List Char) : List Char := cs.rdropWhile isPySpace

/-- Python `str.strip()` on a character list. -/
def stripChars (cs : List Char) : List Char := rstripChars (lstripChars cs)

/-- Python `line.strip()`. -/
def stripS (s : String) : String := ⟨stripChars s.data⟩

/-- Python `s.rstrip()`. -/
def rstripS (s : String) : String := ⟨rstripChars s.data⟩

/-- Python `"\n".join(parts)`. -/
def joinNl : List String → String
  | [] => ""
  | [s] => s
  | s :: rest => s ++ "\n" ++ joinNl rest

/-- Python `" ".join(parts)`. -/
def joinSp : List String → String
  | [] => ""
  | [s] => s
  | s :: rest => s ++ " " ++ joinSp rest

/-- Splitting a character list at newline characters (for analysing the
lines of an emitted code block's content). -/
def splitNlChars : List Char → List Char → List String
  | [], acc => [⟨acc.reverse⟩]
  | c :: rest, acc =>
    if c = '\n' then ⟨acc.reverse⟩ :: splitNlChars rest []
    else splitNlChars rest (c :: acc)

/-- The lines of a block's content string. -/
def contentLines (s : String) : List String := splitNlChars s.data []

/-- The line-boundary characters of Python `str.splitlines()`. -/
def isLineBreakChar (c : Char) : Bool :=
  c == '\n' || c == '\r' || c == '\x0b' || c == '\x0c' || c == '\x1c' ||
  c == '\x1d' || c == '\x1e' || c == '\x85' || c == '\u2028' || c == '\u2029'

/-- Python `str.splitlines()` on a character list (`\r\n` is one boundary,
no trailing empty line). -/
def splitlinesChars : List Char → List Char → List String
  | [], acc => if acc.isEmpty then [] else [⟨acc.reverse⟩]
  | [c], acc =>
    if isLineBreakChar c then [⟨acc.reverse⟩] else [⟨(c :: acc).reverse⟩]
  | c :: c2 :: rest, acc =>
    if c = '\r' ∧ c2 = '\n' then ⟨acc.reverse⟩ :: splitlinesChars rest []
    else if isLineBreakChar c then ⟨acc.reverse⟩ :: splitlinesChars (c2 :: rest) []
    else splitlinesChars (c2 :: rest) (c :: acc)

/-- Python `md_text.splitlines()`. -/
def pySplitlines (md : String) : List String := splitlinesChars md.data []

/-- The test `line.strip().startswith` applied to three backticks: the
fence-marker check of the source. -/
def isFenceLine (l : String) : Bool :=
  match stripChars l.data with
  | c1 :: c2 :: c3 :: _ => c1 == '\x60' && c2 == '\x60' && c3 == '\x60'
  | _ => false

/-- `not line.strip()`: blank-line test. -/
def isBlankLine (l : String) : Bool := (stripChars l.data).isEmpty

/-- `re.match(r"^---+$", line.strip())`: the stripped line is three or more
hyphens and nothing else. -/
def isSepLine (l : String) : Bool :=
  let s := stripChars l.data
  decide (3 ≤ s.length) && s.all (fun c => c == '-')

/-- Length of the run of `#` characters at the very start of the line. -/
def leadingHashes (l : String) : Nat := (l.data.takeWhile (fun c => c == '#')).length

/-- `re.match(r"^(#{1,6})\s+(.*)$", line)` succeeds: 1 to 6 leading `#`
followed by at least one whitespace character. -/
def isHeadingLine (l : String) : Bool :=
  let k := leadingHashes l
  decide (1 ≤ k) && decide (k ≤ 6) &&
    (match l.data.drop k with
     | c :: _ => isPySpace c
     | [] => false)

/-- `heading.group(2).strip()`: text after the hashes and the greedy
whitespace run, stripped. -/
def headingText (l : String) : String :=
  ⟨stripChars ((l.data.drop (leadingHashes l)).dropWhile isPySpace)⟩

/-- The code points of Unicode category Nd: the set Python's `\d` in
`re` patterns over `str` (equivalently `str.isdecimal()`) matches. -/
def isDigitCode (n : Nat) : Bool :=
  (0x30 ≤ n && n ≤ 0x39) || (0x660 ≤ n && n ≤ 0x669) || (0x6f0 ≤ n && n ≤ 0x6f9) ||
  (0x7c0 ≤ n && n ≤ 0x7c9) || (0x966 ≤ n && n ≤ 0x96f) || (0x9e6 ≤ n && n ≤ 0x9ef) ||
  (0xa66 ≤ n && n ≤ 0xa6f) || (0xae6 ≤ n && n ≤ 0xaef) || (0xb66 ≤ n && n ≤ 0xb6f) ||
  (0xbe6 ≤ n && n ≤ 0xbef) || (0xc66 ≤ n && n ≤ 0xc6f) || (0xce6 ≤ n && n ≤ 0xcef) ||
  (0xd66 ≤ n && n ≤ 0xd6f) || (0xde6 ≤ n && n ≤ 0xdef) || (0xe50 ≤ n && n ≤ 0xe59) ||
  (0xed0 ≤ n && n ≤ 0xed9) || (0xf20 ≤ n && n ≤ 0xf29) || (0x1040 ≤ n && n ≤ 0x1049) ||
  (0x1090 ≤ n && n ≤ 0x1099) || (0x17e0 ≤ n && n ≤ 0x17e9) || (0x1810 ≤ n && n ≤ 0x1819) ||
  (0x1946 ≤ n && n ≤ 0x194f) || (0x19d0 ≤ n && n ≤ 0x19d9) || (0x1a80 ≤ n && n ≤ 0x1a89) ||
  (0x1a90 ≤ n && n ≤ 0x1a99) || (0x1b50 ≤ n && n ≤ 0x1b59) || (0x1bb0 ≤ n && n ≤ 0x1bb9) ||
  (0x1c40 ≤ n && n ≤ 0x1c49) || (0x1c50 ≤ n && n ≤ 0x1c59) || (0xa620 ≤ n && n ≤ 0xa629) ||
  (0xa8d0 ≤ n && n ≤ 0xa8d9) || (0xa900 ≤ n && n ≤ 0xa909) || (0xa9d0 ≤ n && n ≤ 0xa9d9) ||
  (0xa9f0 ≤ n && n ≤ 0xa9f9) || (0xaa50 ≤ n && n ≤ 0xaa59) || (0xabf0 ≤ n && n ≤ 0xabf9) ||
  (0xff10 ≤ n && n ≤ 0xff19) || (0x104a0 ≤ n && n ≤ 0x104a9) || (0x10d30 ≤ n && n ≤ 0x10d39) ||
  (0x11066 ≤ n && n ≤ 0x1106f) || (0x110f0 ≤ n && n ≤ 0x110f9) || (0x11136 ≤ n && n ≤ 0x1113f) ||
  (0x111d0 ≤ n && n ≤ 0x111d9) || (0x112f0 ≤ n && n ≤ 0x112f9) || (0x11450 ≤ n && n ≤ 0x11459) ||
  (0x114d0 ≤ n && n ≤ 0x114d9) || (0x11650 ≤ n && n ≤ 0x11659) || (0x116c0 ≤ n && n ≤ 0x116c9) ||
  (0x11730 ≤ n && n ≤ 0x11739) || (0x118e0 ≤ n && n ≤ 0x118e9) || (0x11950 ≤ n && n ≤ 0x11959) ||
  (0x11c50 ≤ n && n ≤ 0x11c59) || (0x11d50 ≤ n && n ≤ 0x11d59) || (0x11da0 ≤ n && n ≤ 0x11da9) ||
  (0x16a60 ≤ n && n ≤ 0x16a69) || (0x16ac0 ≤ n && n ≤ 0x16ac9) || (0x16b50 ≤ n && n ≤ 0x16b59) ||
  (0x1d7ce ≤ n && n ≤ 0x1d7ff) || (0x1e140 ≤ n && n ≤ 0x1e149) || (0x1e2f0 ≤ n && n ≤ 0x1e2f9) ||
  (0x1e950 ≤ n && n ≤ 0x1e959) || (0x1fbf0 ≤ n && n ≤ 0x1fbf9)

/-- The decimal-digit test of Python's `\d` on one character. -/
def isPyDigit (c : Char) : Bool := isDigitCode c.toNat

/-- The marker alternation `(?:[-*]|\d+\.)` applied at the start of `cs`:
returns the remainder after the marker when it matches. -/
def listMarkerRest (cs : List Char) : Option (List Char) :=
  match cs with
  | [] => none
  | c :: rest =>
    if c = '-' || c = '*' then some rest
    else if cs.takeWhile isPyDigit ≠ [] ∧ (cs.dropWhile isPyDigit).head? = some '.' then
      some (cs.dropWhile isPyDigit).tail
    else none

/-- `re.match(r"^\s*(?:[-*]|\d+\.)\s+", line)` succeeds: returns the
remainder of the line after the matched marker and its trailing
whitespace run. -/
def listItemRest (l : String) : Option (List Char) :=
  match listMarkerRest (lstripChars l.data) with
  | some (c :: rest) =>
    if isPySpace c then some ((c :: rest).dropWhile isPySpace) else none
  | some [] => none
  | none => none

/-- The line matches the list-item pattern. -/
def isListItem (l : String) : Bool := (listItemRest l).isSome

/-- `re.sub(r"^\s*(?:[-*]|\d+\.)\s+", "", line).rstrip()`. -/
def listItemText (l : String) : String :=
  match listItemRest l with
  | some cs => ⟨rstripChars cs⟩
  | none => ⟨rstripChars l.data⟩

/-- A line at which paragraph accumulation stops, in the order the source
checks them: blank, fence marker, heading, list item, separator. -/
def isParaBreak (l : String) : Bool :=
  isBlankLine l || isFenceLine l || isHeadingLine l || isListItem l || isSepLine l

/-- A parsed block, as built by `parse_markdown`. -/
inductive Block where
  | heading (level : Nat) (text : String)
  | para (text : String)
  | list (items : List String)
  | code (content : String)
  | separator
deriving DecidableEq, Repr

/-- The `while i < len(lines)` loop of `parse_markdown`, with the loop
state `(in_code, code_buf)` made explicit.  The list-item and paragraph
branches consume their whole run of lines at once (the inner `while`
loops of the source), so the recursion advances past them. -/
def scan : List String → Bool → List String → List Block
  | [], _, _ => []
  | l :: rest, inCode, buf =>
    if isFenceLine l then
      if inCode then
        Block.code (rstripS (joinNl buf)) :: scan rest false []
      else
        scan rest true buf
    else if inCode then
      scan rest true (buf ++ [l])
    else if isBlankLine l then
      scan rest false buf
    else if isSepLine l then
      Block.separator :: scan rest false buf
    else if isHeadingLine l then
      Block.heading (leadingHashes l) (headingText l) :: scan rest false buf
    else if isListItem l then
      Block.list (listItemText l :: (rest.takeWhile isListItem).map listItemText)
        :: scan (rest.dropWhile isListItem) false buf
    else
      Block.para (stripS (joinSp (stripS l :: (rest.takeWhile (fun x => ! isParaBreak x)).map stripS)))
        :: scan (rest.dropWhile (fun x => ! isParaBreak x)) false buf
termination_by lines _ _ => lines.length
decreasing_by
  all_goals simp only [List.length_cons]
  all_goals first
    | exact Nat.lt_succ_of_le (List.Sublist.length_le (List.dropWhile_sublist _))
    | exact Nat.lt_succ_self _

/-- `parse_markdown` run directly on a list of physical lines. -/
def parseLines (lines : List String) : List Block := scan lines false []

/-- `parse_markdown(md_text)` from the source. -/
def parse_markdown (md_text : String) : List Block :=
  parseLines (pySplitlines md_text)

/-- Fuel-indexed structural twin of `scan`, used to evaluate the parser on
concrete inputs; `scan_eq_scanB` shows the two agree when the fuel covers
the number of lines. -/
def scanB : Nat → List String → Bool → List String → List Block
  | 0, _, _, _ => []
  | _ + 1, [], _, _ => []
  | fuel + 1, l :: rest, inCode, buf =>
    if isFenceLine l then
      if inCode then
        Block.code (rstripS (joinNl buf)) :: scanB fuel rest false []
      else
        scanB fuel rest true buf
    else if inCode then
      scanB fuel rest true (buf ++ [l])
    else if isBlankLine l then
      scanB fuel rest false buf
    else if isSepLine l then
      Block.separator :: scanB fuel rest false buf
    else if isHeadingLine l then
      Block.heading (leadingHashes l) (headingText l) :: scanB fuel rest false buf
    else if isListItem l then
      Block.list (listItemText l :: (rest.takeWhile isListItem).map listItemText)
        :: scanB fuel (rest.dropWhile isListItem) false buf
    else
      Block.para (stripS (joinSp (stripS l ::
          (rest.takeWhile (fun x => ! isParaBreak x)).map stripS)))
        :: scanB fuel (rest.dropWhile (fun x => ! isParaBreak x)) false buf

/-- `xml.sax.saxutils.escape` on one character. -/
def escapeChar (c : Char) : List Char :=
  if c = '&' then "&amp;".data
  else if c = '<' then "&lt;".data
  else if c = '>' then "&gt;".data
  else [c]

/-- `xml.sax.saxutils.escape(data)`: escape the markup characters of the
layout engine. -/
def escape (s : String) : String := ⟨(s.data.map escapeChar).flatten⟩

/-- The `.replace` call of the renderer removing every backtick. -/
def removeBackticks (s : String) : String := ⟨s.data.filter (fun c => c != '\x60')⟩

/-- The fixed paragraph styles of `build_pdf` (`style_body`, `style_h1`,
`style_h2`, `style_h3`, `style_code`). -/
inductive PStyle where
  | body
  | h1
  | h2
  | h3
  | codeStyle
deriving DecidableEq, Repr

/-- A drawable element appended to `story`: a `Paragraph`, a
`Preformatted`, or a `Spacer(w, h)`. -/
inductive Elem where
  | par (text : String) (style : PStyle)
  | pre (text : String) (style : PStyle)
  | spacer (w h : Nat)
deriving DecidableEq, Repr

/-- `style_h1 if level == 1 else style_h2 if level == 2 else style_h3`. -/
def headingStyle (level : Nat) : PStyle :=
  if level = 1 then PStyle.h1 else if level = 2 then PStyle.h2 else PStyle.h3

/-- The body of the `for block in blocks` loop of `build_pdf`: drawable
elements contributed by one block. -/
def renderBlock : Block → List Elem
  | Block.heading level text => [Elem.par (escape text) (headingStyle level)]
  | Block.para text => [Elem.par (removeBackticks (escape text)) PStyle.body]
  | Block.list items =>
      items.map (fun item => Elem.par ("• " ++ removeBackticks (escape item)) PStyle.body)
        ++ [Elem.spacer 1 2]
  | Block.code content =>
      if content = "" then [] else [Elem.pre content PStyle.codeStyle]
  | Block.separator => [Elem.spacer 1 8]

/-- The full `story` list built by `build_pdf` from the parsed blocks. -/
def buildStory (blocks : List Block) : List Elem := (blocks.map renderBlock).flatten

/-- Observable outcome of `main`: exit code, lines printed, and whether
`build_pdf` was reached.  The existence check `input_path.exists()` is a
boolean parameter; `build_pdf` itself (PDF output) is outside the model. -/
structure RunOutcome where
  exitCode : Nat
  printed : List String
  ranBuild : Bool
deriving DecidableEq, Repr

/-- The usage line printed on a wrong argument count. -/
def usageLine : String := "Usage: generate_pdf.py <input.md> <output.pdf>"

/-- `main()` from the source: `sys.argv` (program name included) and the
result of `input_path.exists()` determine the outcome. -/
def mainRun (argv : List String) (inputExists : Bool) : RunOutcome :=
  match argv, inputExists with
  | [_, _, outPath], true => ⟨0, ["Generated: " ++ outPath], true⟩
  | [_, inPath, _], false => ⟨1, ["Input not found: " ++ inPath], false⟩
  | _, _ => ⟨2, [usageLine], false⟩

/-- The invariants of claim C10 on a single block: heading levels lie in
1..6, lists are non-empty, code content carries no trailing whitespace.
That every block is one of the five kinds is enforced by the `Block`
type itself, which has exactly those constructors. -/
def blockInv : Block → Prop
  | Block.heading level _ => 1 ≤ level ∧ level ≤ 6
  | Block.para _ => True
  | Block.list items => items ≠ []
  | Block.code content => rstripS content = content
  | Block.separator => True

/-! Helper lemmas about `dropWhile`, `rdropWhile` and the Python string
primitives built on them. -/

theorem dropWhile_head_false {α} {p : α → Bool} {cs : List α} {c : α} {t : List α}
    (h : cs.dropWhile p = c :: t) : p c = false := by
  induction cs with
  | nil => simp at h
  | cons x xs ih =>
    by_cases hp : p x
    · rw [List.dropWhile_cons_of_pos hp] at h
      exact ih h
    · rw [List.dropWhile_cons_of_neg hp] at h
      injection h with h1 _
      subst h1
      simpa using hp

theorem rstripChars_reverse (cs : List Char) :
    rstripChars cs = (cs.reverse.dropWhile isPySpace).reverse := rfl

theorem rstrip_decomp (cs : List Char) :
    ∃ ws, cs = rstripChars cs ++ ws ∧ ∀ c ∈ ws, isPySpace c = true := by
  refine ⟨(cs.reverse.takeWhile isPySpace).reverse, ?_, ?_⟩
  · have h : cs.reverse.takeWhile isPySpace ++ cs.reverse.dropWhile isPySpace = cs.reverse :=
      List.takeWhile_append_dropWhile isPySpace cs.reverse
    conv_lhs => rw [← cs.reverse_reverse, ← h]
    rw [List.reverse_append, rstripChars_reverse]
  · intro c hc
    rw [List.mem_reverse] at hc
    exact List.mem_takeWhile_imp hc

theorem lstrip_decomp (cs : List Char) :
    ∃ ws, cs = ws ++ lstripChars cs ∧ ∀ c ∈ ws, isPySpace c = true := by
  refine ⟨cs.takeWhile isPySpace, ?_, ?_⟩
  · exact (List.takeWhile_append_dropWhile isPySpace cs).symm
  · intro c hc
    exact List.mem_takeWhile_imp hc

theorem strip_decomp (cs : List Char) :
    ∃ ws₁ ws₂, cs = ws₁ ++ stripChars cs ++ ws₂ ∧
      (∀ c ∈ ws₁, isPySpace c = true) ∧ ∀ c ∈ ws₂, isPySpace c = true := by
  obtain ⟨ws₁, h₁, hs₁⟩ := lstrip_decomp cs
  obtain ⟨ws₂, h₂, hs₂⟩ := rstrip_decomp (lstripChars cs)
  exact ⟨ws₁, ws₂, by rw [stripChars, List.append_assoc, ← h₂, ← h₁], hs₁, hs₂⟩

theorem lstrip_head_false {cs : List Char} {c : Char} {t : List Char}
    (h : lstripChars cs = c :: t) : isPySpace c = false :=
  dropWhile_head_false h

theorem rstrip_head {cs : List Char} {c : Char} {t : List Char}
    (h : cs = c :: t) : rstripChars cs = [] ∨ ∃ t', rstripChars cs = c :: t' := by
  obtain ⟨ws, hws, _⟩ := rstrip_decomp cs
  match hr : rstripChars cs with
  | [] => exact Or.inl rfl
  | d :: t' =>
    rw [hr] at hws
    rw [h] at hws
    injection hws with h1 _
    exact Or.inr ⟨t', by rw [h1]⟩

theorem rstrip_last_false {cs : List Char} {c : Char}
    (h : (rstripChars cs).getLast? = some c) : isPySpace c = false := by
  rw [rstripChars_reverse] at h
  rw [List.getLast?_reverse] at h
  match hd : (cs.reverse.dropWhile isPySpace) with
  | [] => rw [hd] at h; simp at h
  | d :: t =>
    rw [hd] at h
    simp at h
    rw [← h]
    exact dropWhile_head_false hd

theorem strip_head_false {cs : List Char} {c : Char} {t : List Char}
    (h : stripChars cs = c :: t) : isPySpace c = false := by
  rw [stripChars] at h
  match hl : lstripChars cs with
  | [] => rw [hl] at h; simp [rstripChars] at h
  | d :: t' =>
    rcases rstrip_head hl with h0 | ⟨t'', h1⟩
    · rw [h0] at h; exact absurd h (by simp)
    · rw [h1] at h
      injection h with h2 _
      rw [← h2]
      exact lstrip_head_false hl

theorem strip_last_false {cs : List Char} {c : Char}
    (h : (stripChars cs).getLast? = some c) : isPySpace c = false :=
  rstrip_last_false h

theorem lstrip_noop {cs : List Char}
    (h : ∀ c ∈ cs.head?, isPySpace c = false) : lstripChars cs = cs := by
  match cs with
  | [] => rfl
  | c :: t =>
    have hc : isPySpace c = false := h c (by simp)
    rw [lstripChars, List.dropWhile_cons_of_neg (by simp [hc])]

theorem rstrip_noop {cs : List Char}
    (h : ∀ c ∈ cs.getLast?, isPySpace c = false) : rstripChars cs = cs := by
  rw [rstripChars_reverse]
  match hr : cs.reverse with
  | [] => simpa using congrArg List.reverse hr.symm
  | c :: t =>
    have hc : isPySpace c = false := by
      refine h c ?_
      rw [← List.head?_reverse, hr]
      simp
    rw [List.dropWhile_cons_of_neg (by simp [hc]), ← hr, List.reverse_reverse]

theorem strip_noop {cs : List Char}
    (h1 : ∀ c ∈ cs.head?, isPySpace c = false)
    (h2 : ∀ c ∈ cs.getLast?, isPySpace c = false) : stripChars cs = cs := by
  rw [stripChars, lstrip_noop h1, rstrip_noop h2]

theorem strip_idem (cs : List Char) : stripChars (stripChars cs) = stripChars cs := by
  refine strip_noop ?_ ?_
  · intro c hc
    match hs : stripChars cs with
    | [] => rw [hs] at hc; simp at hc
    | d :: t =>
      rw [hs] at hc
      simp at hc
      rw [← hc]
      exact strip_head_false hs
  · intro c hc
    exact strip_last_false hc

theorem rstrip_idem (cs : List Char) : rstripChars (rstripChars cs) = rstripChars cs :=
  List.rdropWhile_idempotent isPySpace cs

theorem rstrip_all_space {cs : List Char} (h : ∀ c ∈ cs, isPySpace c = true) :
    rstripChars cs = [] := by
  rw [rstripChars]
  exact List.rdropWhile_eq_nil_iff.mpr h

theorem lstrip_all_space {cs : List Char} (h : ∀ c ∈ cs, isPySpace c = true) :
    lstripChars cs = [] := by
  rw [lstripChars]
  exact List.dropWhile_eq_nil_iff.mpr h

theorem rstrip_cons (c : Char) (t : List Char) :
    rstripChars (c :: t) =
      if rstripChars t = [] then (if isPySpace c then [] else [c])
      else c :: rstripChars t := by
  rw [rstripChars_reverse, List.reverse_cons, List.dropWhile_append]
  by_cases h : rstripChars t = []
  · have h' : t.reverse.dropWhile isPySpace = [] := by
      have := congrArg List.reverse (rstripChars_reverse t ▸ h)
      simpa using this
    rw [if_pos h]
    by_cases hc : isPySpace c
    · simp [h', List.dropWhile, hc]
    · simp [h', List.dropWhile, hc]
  · have h' : ¬ t.reverse.dropWhile isPySpace = [] := by
      intro hx
      exact h (by rw [rstripChars_reverse, hx, List.reverse_nil])
    rw [if_neg h]
    simp only [List.isEmpty_iff, h', if_false]
    rw [List.reverse_append, rstripChars_reverse]
    simp

theorem lstrip_rstrip_comm (cs : List Char) :
    lstripChars (rstripChars cs) = rstripChars (lstripChars cs) := by
  induction cs with
  | nil => rfl
  | cons c t ih =>
    rw [rstrip_cons]
    by_cases hc : isPySpace c = true
    · have hlt : lstripChars (c :: t) = lstripChars t := by
        rw [lstripChars, List.dropWhile_cons_of_pos hc]; rfl
      by_cases ht : rstripChars t = []
      · rw [if_pos ht, if_pos hc, hlt]
        have hall : ∀ x ∈ t, isPySpace x = true := List.rdropWhile_eq_nil_iff.mp ht
        have h2 : lstripChars t = [] := lstrip_all_space hall
        rw [h2]
        rfl
      · rw [if_neg ht]
        have hlc : lstripChars (c :: rstripChars t) = lstripChars (rstripChars t) := by
          rw [lstripChars, List.dropWhile_cons_of_pos hc]; rfl
        rw [hlc, hlt, ih]
    · have hcf : isPySpace c = false := by simpa using hc
      have hlt : lstripChars (c :: t) = c :: t := by
        rw [lstripChars, List.dropWhile_cons_of_neg hc]
      rw [hlt, rstrip_cons]
      by_cases ht : rstripChars t = []
      · rw [if_pos ht, if_neg hc]
        exact lstrip_noop (by intro x hx; simp at hx; rw [← hx]; exact hcf)
      · rw [if_neg ht]
        exact lstrip_noop (by intro x hx; simp at hx; rw [← hx]; exact hcf)

theorem strip_rstrip (cs : List Char) : stripChars (rstripChars cs) = stripChars cs := by
  rw [stripChars, lstrip_rstrip_comm, stripChars]
  exact rstrip_idem (lstripChars cs)

theorem rstrip_append (a b : List Char) :
    rstripChars (a ++ b) =
      if rstripChars b = [] then rstripChars a else a ++ rstripChars b := by
  rw [rstripChars_reverse, List.reverse_append, List.dropWhile_append]
  by_cases h : rstripChars b = []
  · have h' : b.reverse.dropWhile isPySpace = [] := by
      have := congrArg List.reverse (rstripChars_reverse b ▸ h)
      simpa using this
    rw [if_pos h]
    simp [h', rstripChars_reverse]
  · have h' : ¬ b.reverse.dropWhile isPySpace = [] := by
      intro hx
      exact h (by rw [rstripChars_reverse, hx, List.reverse_nil])
    rw [if_neg h]
    simp only [List.isEmpty_iff, h', if_false]
    rw [List.reverse_append, List.reverse_reverse, rstripChars_reverse]

/-! Structure of the line classifiers, and their mutual exclusions in the
order the parser tests them. -/

theorem isHeadingLine_parts {l : String} (h : isHeadingLine l = true) :
    1 ≤ leadingHashes l ∧ leadingHashes l ≤ 6 ∧
      ∃ c t, l.data.drop (leadingHashes l) = c :: t ∧ isPySpace c = true := by
  simp only [isHeadingLine, Bool.and_eq_true, decide_eq_true_eq] at h
  obtain ⟨⟨h1, h2⟩, h3⟩ := h
  refine ⟨h1, h2, ?_⟩
  match hd : l.data.drop (leadingHashes l) with
  | [] => rw [hd] at h3; simp at h3
  | c :: t => rw [hd] at h3; exact ⟨c, t, rfl, h3⟩

theorem heading_head {l : String} (h : isHeadingLine l = true) :
    ∃ t, l.data = '#' :: t := by
  have h1 := (isHeadingLine_parts h).1
  unfold leadingHashes at h1
  match hd : l.data with
  | [] => rw [hd] at h1; simp at h1
  | c :: t =>
    by_cases hc : c = '#'
    · exact ⟨t, by rw [hc]⟩
    · rw [hd, List.takeWhile_cons_of_neg (by simp [hc])] at h1
      simp at h1

theorem rstrip_cons_of_nonspace {c : Char} {t : List Char} (hc : isPySpace c = false) :
    ∃ t', rstripChars (c :: t) = c :: t' := by
  rw [rstrip_cons]
  by_cases ht : rstripChars t = []
  · rw [if_pos ht, if_neg (by simp [hc])]
    exact ⟨[], rfl⟩
  · rw [if_neg ht]
    exact ⟨rstripChars t, rfl⟩

theorem strip_cons_of_nonspace {c : Char} {t : List Char} (hc : isPySpace c = false) :
    ∃ t', stripChars (c :: t) = c :: t' := by
  have hl : lstripChars (c :: t) = c :: t := by
    rw [lstripChars, List.dropWhile_cons_of_neg (by simp [hc])]
  rw [stripChars, hl]
  exact rstrip_cons_of_nonspace hc

theorem heading_strip_head {l : String} (h : isHeadingLine l = true) :
    ∃ t', stripChars l.data = '#' :: t' := by
  obtain ⟨t, ht⟩ := heading_head h
  rw [ht]
  exact strip_cons_of_nonspace (by decide)

theorem heading_not_fence {l : String} (h : isHeadingLine l = true) :
    isFenceLine l = false := by
  obtain ⟨t', ht⟩ := heading_strip_head h
  unfold isFenceLine
  rw [ht]
  rcases t' with _ | ⟨a, t''⟩
  · rfl
  rcases t'' with _ | ⟨b, r⟩
  · rfl
  · rfl

theorem heading_not_blank {l : String} (h : isHeadingLine l = true) :
    isBlankLine l = false := by
  obtain ⟨t', ht⟩ := heading_strip_head h
  unfold isBlankLine
  rw [ht]
  rfl

theorem isSepLine_parts {l : String} (h : isSepLine l = true) :
    ∃ t, stripChars l.data = '-' :: '-' :: '-' :: t ∧ ∀ c ∈ t, c = '-' := by
  simp only [isSepLine, Bool.and_eq_true, decide_eq_true_eq, List.all_eq_true,
    beq_iff_eq] at h
  obtain ⟨hlen, hall⟩ := h
  match hs : stripChars l.data with
  | [] => rw [hs] at hlen; simp at hlen
  | [a] => rw [hs] at hlen; simp at hlen
  | [a, b] => rw [hs] at hlen; simp at hlen
  | a :: b :: c :: t =>
    rw [hs] at hall
    have ha : a = '-' := hall a (by simp)
    have hb : b = '-' := hall b (by simp)
    have hc : c = '-' := hall c (by simp)
    subst ha
    subst hb
    subst hc
    exact ⟨t, rfl, fun x hx => hall x (by simp [hx])⟩

theorem heading_not_sep {l : String} (h : isHeadingLine l = true) :
    isSepLine l = false := by
  by_cases hs : isSepLine l = true
  · exfalso
    obtain ⟨t', ht⟩ := heading_strip_head h
    obtain ⟨t, hstrip, _⟩ := isSepLine_parts hs
    rw [ht] at hstrip
    injection hstrip with h1 _
    exact absurd h1 (by decide)
  · simpa using hs

theorem sep_not_fence {l : String} (h : isSepLine l = true) :
    isFenceLine l = false := by
  obtain ⟨t, ht, _⟩ := isSepLine_parts h
  unfold isFenceLine
  rw [ht]
  rfl

theorem sep_not_blank {l : String} (h : isSepLine l = true) :
    isBlankLine l = false := by
  obtain ⟨t, ht, _⟩ := isSepLine_parts h
  unfold isBlankLine
  rw [ht]
  rfl

theorem digit_nonspace {c : Char} (h : isPyDigit c = true) : isPySpace c = false := by
  by_cases hs : isPySpace c = true
  · exfalso
    unfold isPyDigit isDigitCode at h
    unfold isPySpace isSpaceCode at hs
    simp only [Bool.or_eq_true, Bool.and_eq_true, decide_eq_true_eq, beq_iff_eq] at h hs
    omega
  · simpa using hs

theorem marker_nonspace {c : Char} (h : c = '-' ∨ c = '*' ∨ isPyDigit c = true) :
    isPySpace c = false := by
  rcases h with h | h | h
  · rw [h]; decide
  · rw [h]; decide
  · exact digit_nonspace h

theorem listMarkerRest_shape {cs r : List Char} (h : listMarkerRest cs = some r) :
    ∃ c t, cs = c :: t ∧ (c = '-' ∨ c = '*' ∨ isPyDigit c = true) := by
  cases cs with
  | nil => simp [listMarkerRest] at h
  | cons c t =>
    refine ⟨c, t, rfl, ?_⟩
    by_cases h1 : c = '-'
    · exact Or.inl h1
    by_cases h2 : c = '*'
    · exact Or.inr (Or.inl h2)
    refine Or.inr (Or.inr ?_)
    simp only [listMarkerRest] at h
    rw [if_neg (by simp [h1, h2])] at h
    by_cases hd : isPyDigit c = true
    · exact hd
    · rw [List.takeWhile_cons_of_neg (by simpa using hd)] at h
      simp at h

theorem isListItem_parts {l : String} (h : isListItem l = true) :
    ∃ c t, lstripChars l.data = c :: t ∧ (c = '-' ∨ c = '*' ∨ isPyDigit c = true) := by
  unfold isListItem listItemRest at h
  cases hm : listMarkerRest (lstripChars l.data) with
  | none => rw [hm] at h; simp at h
  | some rest => exact listMarkerRest_shape hm

theorem listItem_strip_head {l : String} (h : isListItem l = true) :
    ∃ c t, stripChars l.data = c :: t ∧ (c = '-' ∨ c = '*' ∨ isPyDigit c = true) := by
  obtain ⟨c, t, hl, hm⟩ := isListItem_parts h
  rw [stripChars, hl]
  obtain ⟨t', ht'⟩ := rstrip_cons_of_nonspace (marker_nonspace hm)
  exact ⟨c, t', ht', hm⟩

theorem listItem_not_fence {l : String} (h : isListItem l = true) :
    isFenceLine l = false := by
  obtain ⟨c, t', hs, hm⟩ := listItem_strip_head h
  have hc : (c == '\x60') = false := by
    rcases hm with h1 | h1 | h1
    · rw [h1]; rfl
    · rw [h1]; rfl
    · by_cases hq : c = '\x60'
      · rw [hq] at h1; exact absurd h1 (by decide)
      · simp [hq]
  unfold isFenceLine
  rw [hs]
  rcases t' with _ | ⟨a, t''⟩
  · rfl
  rcases t'' with _ | ⟨b, r⟩
  · rfl
  · simp [hc]

theorem listItem_not_blank {l : String} (h : isListItem l = true) :
    isBlankLine l = false := by
  obtain ⟨c, t', hs, _⟩ := listItem_strip_head h
  unfold isBlankLine
  rw [hs]
  rfl

theorem listItem_not_sep {l : String} (h : isListItem l = true) :
    isSepLine l = false := by
  by_cases hs : isSepLine l = true
  · exfalso
    obtain ⟨t, hstrip, _⟩ := isSepLine_parts hs
    obtain ⟨ws, hws, _⟩ := rstrip_decomp (lstripChars l.data)
    rw [← stripChars, hstrip] at hws
    have hnone : listItemRest l = none := by
      unfold listItemRest
      rw [hws, List.cons_append, List.cons_append, List.cons_append]
      have hsp : isPySpace '-' = false := by decide
      simp [listMarkerRest, hsp]
    rw [isListItem, hnone] at h
    simp at h
  · simpa using hs

theorem heading_not_listItem {l : String} (h : isHeadingLine l = true) :
    isListItem l = false := by
  obtain ⟨t, hd⟩ := heading_head h
  have hl : lstripChars l.data = '#' :: t := by
    rw [hd, lstripChars, List.dropWhile_cons_of_neg (by decide)]
  have htw : (('#' : Char) :: t).takeWhile isPyDigit = [] :=
    List.takeWhile_cons_of_neg (by decide)
  have hnone : listItemRest l = none := by
    unfold listItemRest
    rw [hl]
    simp [listMarkerRest, htw]
  rw [isListItem, hnone]
  rfl

theorem isFenceLine_parts {l : String} (h : isFenceLine l = true) :
    ∃ r, stripChars l.data = '\x60' :: '\x60' :: '\x60' :: r := by
  unfold isFenceLine at h
  match hs : stripChars l.data with
  | [] => rw [hs] at h; simp at h
  | [a] => rw [hs] at h; simp at h
  | [a, b] => rw [hs] at h; simp at h
  | a :: b :: c :: r =>
    rw [hs] at h
    simp only [Bool.and_eq_true, beq_iff_eq] at h
    obtain ⟨⟨h1, h2⟩, h3⟩ := h
    subst h1
    subst h2
    subst h3
    exact ⟨r, rfl⟩

theorem fence_not_listItem {l : String} (h : isFenceLine l = true) :
    isListItem l = false := by
  obtain ⟨r, hs⟩ := isFenceLine_parts h
  obtain ⟨ws, hws, _⟩ := rstrip_decomp (lstripChars l.data)
  rw [← stripChars, hs] at hws
  have htw : (('\x60' : Char) :: '\x60' :: '\x60' :: (r ++ ws)).takeWhile isPyDigit = [] :=
    List.takeWhile_cons_of_neg (by decide)
  have hnone : listItemRest l = none := by
    unfold listItemRest
    rw [hws, List.cons_append, List.cons_append, List.cons_append]
    simp [listMarkerRest, htw]
  rw [isListItem, hnone]
  rfl

/-! Reduction lemmas for one step of the parser loop. -/

theorem scan_nil (inCode : Bool) (buf : List String) : scan [] inCode buf = [] := by
  simp [scan]

theorem scan_open {l : String} (rest buf : List String) (h : isFenceLine l = true) :
    scan (l :: rest) false buf = scan rest true buf := by
  simp [scan, h]

theorem scan_close {l : String} (rest buf : List String) (h : isFenceLine l = true) :
    scan (l :: rest) true buf = Block.code (rstripS (joinNl buf)) :: scan rest false [] := by
  simp [scan, h]

theorem scan_code_line {l : String} (rest buf : List String) (h : isFenceLine l = false) :
    scan (l :: rest) true buf = scan rest true (buf ++ [l]) := by
  simp [scan, h]

theorem scan_blank {l : String} (rest buf : List String)
    (hf : isFenceLine l = false) (hb : isBlankLine l = true) :
    scan (l :: rest) false buf = scan rest false buf := by
  simp [scan, hf, hb]

theorem scan_sep {l : String} (rest buf : List String)
    (hf : isFenceLine l = false) (hb : isBlankLine l = false) (hs : isSepLine l = true) :
    scan (l :: rest) false buf = Block.separator :: scan rest false buf := by
  simp [scan, hf, hb, hs]

theorem scan_heading {l : String} (rest buf : List String)
    (hf : isFenceLine l = false) (hb : isBlankLine l = false) (hs : isSepLine l = false)
    (hh : isHeadingLine l = true) :
    scan (l :: rest) false buf =
      Block.heading (leadingHashes l) (headingText l) :: scan rest false buf := by
  simp [scan, hf, hb, hs, hh]

theorem scan_list {l : String} (rest buf : List String)
    (hf : isFenceLine l = false) (hb : isBlankLine l = false) (hs : isSepLine l = false)
    (hh : isHeadingLine l = false) (hli : isListItem l = true) :
    scan (l :: rest) false buf =
      Block.list (listItemText l :: (rest.takeWhile isListItem).map listItemText)
        :: scan (rest.dropWhile isListItem) false buf := by
  simp [scan, hf, hb, hs, hh, hli]

theorem scan_para {l : String} (rest buf : List String)
    (hf : isFenceLine l = false) (hb : isBlankLine l = false) (hs : isSepLine l = false)
    (hh : isHeadingLine l = false) (hli : isListItem l = false) :
    scan (l :: rest) false buf =
      Block.para (stripS (joinSp (stripS l ::
          (rest.takeWhile (fun x => ! isParaBreak x)).map stripS)))
        :: scan (rest.dropWhile (fun x => ! isParaBreak x)) false buf := by
  simp [scan, hf, hb, hs, hh, hli]

/-! Behaviour of the parser inside a code fence, and composition of the
parse at the first fence line. -/

theorem scan_code_run (closeL : String) (post : List String)
    (hclose : isFenceLine closeL = true) :
    ∀ interior buf, (∀ l ∈ interior, isFenceLine l = false) →
      scan (interior ++ closeL :: post) true buf
        = Block.code (rstripS (joinNl (buf ++ interior))) :: scan post false [] := by
  intro interior
  induction interior with
  | nil =>
    intro buf _
    simpa using scan_close post buf hclose
  | cons l rest ih =>
    intro buf h
    rw [List.cons_append, scan_code_line _ _ (h l (by simp)),
      ih (buf ++ [l]) (fun x hx => h x (by simp [hx])), List.append_assoc]
    rfl

theorem scan_unterminated :
    ∀ (rest buf : List String), (∀ l ∈ rest, isFenceLine l = false) →
      scan rest true buf = [] := by
  intro rest
  induction rest with
  | nil => intro buf _; exact scan_nil true buf
  | cons l t ih =>
    intro buf h
    rw [scan_code_line _ _ (h l (by simp))]
    exact ih _ (fun x hx => h x (by simp [hx]))

theorem takeWhile_append_stop {α} {p : α → Bool} (xs : List α) {y : α} (ys : List α)
    (hy : p y = false) : (xs ++ y :: ys).takeWhile p = xs.takeWhile p := by
  have hy' : ¬ p y = true := by simp [hy]
  induction xs with
  | nil => rw [List.nil_append, List.takeWhile_cons_of_neg hy']; rfl
  | cons x t ih =>
    by_cases hx : p x
    · simp [List.takeWhile_cons_of_pos hx, ih]
    · simp [List.takeWhile_cons_of_neg hx]

theorem dropWhile_append_stop {α} {p : α → Bool} (xs : List α) {y : α} (ys : List α)
    (hy : p y = false) : (xs ++ y :: ys).dropWhile p = xs.dropWhile p ++ y :: ys := by
  have hy' : ¬ p y = true := by simp [hy]
  induction xs with
  | nil => rw [List.nil_append, List.dropWhile_cons_of_neg hy']; rfl
  | cons x t ih =>
    by_cases hx : p x
    · simp [List.dropWhile_cons_of_pos hx, ih]
    · simp [List.dropWhile_cons_of_neg hx]

theorem scan_no_fence_no_code (n : Nat) :
    ∀ lines : List String, lines.length ≤ n → ∀ buf,
      (∀ l ∈ lines, isFenceLine l = false) →
      ∀ b ∈ scan lines false buf, ∀ c, b ≠ Block.code c := by
  induction n with
  | zero =>
    intro lines hlen buf _ b hb c
    have hnil : lines = [] := List.eq_nil_of_length_eq_zero (Nat.le_zero.mp hlen)
    rw [hnil, scan_nil] at hb
    simp at hb
  | succ n ih =>
    intro lines hlen buf hfence b hb c
    cases lines with
    | nil => rw [scan_nil] at hb; simp at hb
    | cons l rest =>
      have hfl : isFenceLine l = false := hfence l (by simp)
      have hrest : ∀ x ∈ rest, isFenceLine x = false := fun x hx => hfence x (by simp [hx])
      have hlen' : rest.length ≤ n := by simp at hlen; omega
      by_cases hbl : isBlankLine l = true
      · rw [scan_blank rest buf hfl hbl] at hb
        exact ih rest hlen' buf hrest b hb c
      · by_cases hs : isSepLine l = true
        · rw [scan_sep rest buf hfl (by simpa using hbl) hs] at hb
          rcases List.mem_cons.mp hb with rfl | hb2
          · simp
          · exact ih rest hlen' buf hrest b hb2 c
        · by_cases hh : isHeadingLine l = true
          · rw [scan_heading rest buf hfl (by simpa using hbl) (by simpa using hs) hh] at hb
            rcases List.mem_cons.mp hb with rfl | hb2
            · simp
            · exact ih rest hlen' buf hrest b hb2 c
          · by_cases hli : isListItem l = true
            · rw [scan_list rest buf hfl (by simpa using hbl) (by simpa using hs)
                (by simpa using hh) hli] at hb
              rcases List.mem_cons.mp hb with rfl | hb2
              · simp
              · refine ih (rest.dropWhile isListItem)
                  (Nat.le_trans (List.Sublist.length_le (List.dropWhile_sublist _)) hlen')
                  buf (fun x hx => hrest x (List.dropWhile_subset _ hx)) b hb2 c
            · rw [scan_para rest buf hfl (by simpa using hbl) (by simpa using hs)
                (by simpa using hh) (by simpa using hli)] at hb
              rcases List.mem_cons.mp hb with rfl | hb2
              · simp
              · refine ih (rest.dropWhile (fun x => ! isParaBreak x))
                  (Nat.le_trans (List.Sublist.length_le (List.dropWhile_sublist _)) hlen')
                  buf (fun x hx => hrest x (List.dropWhile_subset _ hx)) b hb2 c

theorem scan_split_at_fence (f : String) (tail : List String) (hf : isFenceLine f = true) :
    ∀ (n : Nat) (pre : List String), pre.length ≤ n → (∀ l ∈ pre, isFenceLine l = false) →
      scan (pre ++ f :: tail) false []
        = scan pre false [] ++ scan (f :: tail) false [] := by
  intro n
  induction n with
  | zero =>
    intro pre hlen _
    have hnil : pre = [] := List.eq_nil_of_length_eq_zero (Nat.le_zero.mp hlen)
    rw [hnil, List.nil_append, scan_nil, List.nil_append]
  | succ n ih =>
    intro pre hlen hfence
    cases pre with
    | nil => rw [List.nil_append, scan_nil, List.nil_append]
    | cons l rest =>
      have hfl : isFenceLine l = false := hfence l (by simp)
      have hrest : ∀ x ∈ rest, isFenceLine x = false := fun x hx => hfence x (by simp [hx])
      have hlen' : rest.length ≤ n := by simp at hlen; omega
      rw [List.cons_append]
      by_cases hbl : isBlankLine l = true
      · rw [scan_blank _ _ hfl hbl, scan_blank rest [] hfl hbl, ih rest hlen' hrest]
      · by_cases hs : isSepLine l = true
        · rw [scan_sep _ _ hfl (by simpa using hbl) hs,
            scan_sep rest [] hfl (by simpa using hbl) hs, ih rest hlen' hrest,
            List.cons_append]
        · by_cases hh : isHeadingLine l = true
          · rw [scan_heading _ _ hfl (by simpa using hbl) (by simpa using hs) hh,
              scan_heading rest [] hfl (by simpa using hbl) (by simpa using hs) hh,
              ih rest hlen' hrest, List.cons_append]
          · by_cases hli : isListItem l = true
            · have hfli : isListItem f = false := fence_not_listItem hf
              rw [scan_list _ _ hfl (by simpa using hbl) (by simpa using hs)
                  (by simpa using hh) hli,
                scan_list rest [] hfl (by simpa using hbl) (by simpa using hs)
                  (by simpa using hh) hli,
                takeWhile_append_stop rest tail hfli, dropWhile_append_stop rest tail hfli,
                ih (rest.dropWhile isListItem)
                  (Nat.le_trans (List.Sublist.length_le (List.dropWhile_sublist _)) hlen')
                  (fun x hx => hrest x (List.dropWhile_subset _ hx)),
                List.cons_append]
            · have hpf : (fun x => ! isParaBreak x) f = false := by
                simp [isParaBreak, hf]
              rw [scan_para _ _ hfl (by simpa using hbl) (by simpa using hs)
                  (by simpa using hh) (by simpa using hli),
                scan_para rest [] hfl (by simpa using hbl) (by simpa using hs)
                  (by simpa using hh) (by simpa using hli),
                takeWhile_append_stop rest tail hpf, dropWhile_append_stop rest tail hpf,
                ih (rest.dropWhile (fun x => ! isParaBreak x))
                  (Nat.le_trans (List.Sublist.length_le (List.dropWhile_sublist _)) hlen')
                  (fun x hx => hrest x (List.dropWhile_subset _ hx)),
                List.cons_append]

/-! The lines of an emitted code block's content. -/

theorem splitNl_no_newline :
    ∀ (cs acc : List Char), '\n' ∉ cs →
      splitNlChars cs acc = [⟨acc.reverse ++ cs⟩] := by
  intro cs
  induction cs with
  | nil => intro acc _; simp [splitNlChars]
  | cons c rest ih =>
    intro acc h
    have hc : ¬ c = '\n' := fun hq => h (by simp [hq])
    simp only [splitNlChars, if_neg hc]
    rw [ih (c :: acc) (fun hq => h (by simp [hq]))]
    simp

theorem splitNl_append (ys : List Char) :
    ∀ (xs acc : List Char), '\n' ∉ xs →
      splitNlChars (xs ++ '\n' :: ys) acc
        = ⟨acc.reverse ++ xs⟩ :: splitNlChars ys [] := by
  intro xs
  induction xs with
  | nil => intro acc _; simp [splitNlChars]
  | cons c rest ih =>
    intro acc h
    have hc : ¬ c = '\n' := fun hq => h (by simp [hq])
    simp only [List.cons_append, splitNlChars, if_neg hc, List.append_eq]
    rw [ih (c :: acc) (fun hq => h (by simp [hq]))]
    simp

theorem isFence_rstripS (l : String) : isFenceLine (rstripS l) = isFenceLine l := by
  unfold isFenceLine
  have h : stripChars (rstripS l).data = stripChars l.data := by
    show stripChars (rstripChars l.data) = stripChars l.data
    exact strip_rstrip l.data
  rw [h]

theorem not_mem_rstrip {c : Char} {cs : List Char} (h : c ∉ cs) : c ∉ rstripChars cs := by
  intro hc
  obtain ⟨ws, hws, _⟩ := rstrip_decomp cs
  exact h (by rw [hws]; exact List.mem_append_left _ hc)

theorem contentLines_code_fence_free :
    ∀ ls : List String, (∀ l ∈ ls, isFenceLine l = false) → (∀ l ∈ ls, '\n' ∉ l.data) →
      ∀ s ∈ contentLines (rstripS (joinNl ls)), isFenceLine s = false := by
  intro ls
  induction ls with
  | nil =>
    intro _ _ s hs
    have h0 : contentLines (rstripS (joinNl [])) = [⟨[]⟩] := rfl
    rw [h0] at hs
    simp at hs
    rw [hs]
    rfl
  | cons l ls' ih =>
    intro hfence hnl s hs
    cases ls' with
    | nil =>
      have hnot : '\n' ∉ rstripChars l.data := not_mem_rstrip (hnl l (by simp))
      have h1 : contentLines (rstripS (joinNl [l])) = [rstripS l] := by
        show splitNlChars (rstripChars l.data) [] = [rstripS l]
        rw [splitNl_no_newline _ [] hnot]
        simp [rstripS]
      rw [h1] at hs
      simp at hs
      rw [hs, isFence_rstripS]
      exact hfence l (by simp)
    | cons l2 ls'' =>
      have hdata : (joinNl (l :: l2 :: ls'')).data
          = l.data ++ '\n' :: (joinNl (l2 :: ls'')).data := by
        show (l ++ "\n" ++ joinNl (l2 :: ls'')).data
          = l.data ++ '\n' :: (joinNl (l2 :: ls'')).data
        simp [String.data_append]
      by_cases hrb : rstripChars (joinNl (l2 :: ls'')).data = []
      · have hrw : rstripChars (joinNl (l :: l2 :: ls'')).data = rstripChars l.data := by
          rw [hdata, rstrip_append]
          have h1 : rstripChars ('\n' :: (joinNl (l2 :: ls'')).data) = [] := by
            rw [rstrip_cons, if_pos hrb, if_pos (by decide)]
          rw [if_pos h1]
        have hnot : '\n' ∉ rstripChars l.data := not_mem_rstrip (hnl l (by simp))
        have h1 : contentLines (rstripS (joinNl (l :: l2 :: ls''))) = [rstripS l] := by
          show splitNlChars (rstripChars (joinNl (l :: l2 :: ls'')).data) [] = [rstripS l]
          rw [hrw, splitNl_no_newline _ [] hnot]
          simp [rstripS]
        rw [h1] at hs
        simp at hs
        rw [hs, isFence_rstripS]
        exact hfence l (by simp)
      · have hrw : rstripChars (joinNl (l :: l2 :: ls'')).data
            = l.data ++ '\n' :: rstripChars (joinNl (l2 :: ls'')).data := by
          rw [hdata, rstrip_append]
          have h1 : rstripChars ('\n' :: (joinNl (l2 :: ls'')).data)
              = '\n' :: rstripChars (joinNl (l2 :: ls'')).data := by
            rw [rstrip_cons, if_neg hrb]
          rw [if_neg (by rw [h1]; simp), h1]
        have h1 : contentLines (rstripS (joinNl (l :: l2 :: ls'')))
            = l :: contentLines (rstripS (joinNl (l2 :: ls''))) := by
          show splitNlChars (rstripChars (joinNl (l :: l2 :: ls'')).data) []
            = l :: splitNlChars (rstripChars (joinNl (l2 :: ls'')).data) []
          rw [hrw, splitNl_append _ _ [] (hnl l (by simp))]
          simp
        rw [h1] at hs
        rcases List.mem_cons.mp hs with heq | hs2
        · rw [heq]
          exact hfence l (by simp)
        · exact ih (fun x hx => hfence x (by simp [hx]))
            (fun x hx => hnl x (by simp [hx])) s hs2

/-! Output lines of `splitlines` contain no line-boundary characters. -/

theorem splitlines_no_break :
    ∀ (n : Nat) (cs acc : List Char), cs.length ≤ n →
      (∀ c ∈ acc, isLineBreakChar c = false) →
      ∀ l ∈ splitlinesChars cs acc, ∀ c ∈ l.data, isLineBreakChar c = false := by
  intro n
  induction n with
  | zero =>
    intro cs acc hlen hacc l hl c hc
    have hnil : cs = [] := List.eq_nil_of_length_eq_zero (Nat.le_zero.mp hlen)
    rw [hnil] at hl
    simp only [splitlinesChars] at hl
    by_cases ha : acc.isEmpty
    · rw [if_pos ha] at hl; simp at hl
    · rw [if_neg ha] at hl
      simp at hl
      rw [hl] at hc
      exact hacc c (by simpa using hc)
  | succ n ih =>
    intro cs acc hlen hacc l hl c hc
    cases cs with
    | nil =>
      simp only [splitlinesChars] at hl
      by_cases ha : acc.isEmpty
      · rw [if_pos ha] at hl; simp at hl
      · rw [if_neg ha] at hl
        simp at hl
        rw [hl] at hc
        exact hacc c (by simpa using hc)
    | cons c0 rest0 =>
      cases rest0 with
      | nil =>
        simp only [splitlinesChars] at hl
        by_cases hbr : isLineBreakChar c0 = true
        · rw [if_pos hbr] at hl
          simp at hl
          rw [hl] at hc
          exact hacc c (by simpa using hc)
        · rw [if_neg hbr] at hl
          simp at hl
          rw [hl] at hc
          have hmem : c ∈ acc ∨ c = c0 := by simpa using hc
          rcases hmem with h2 | rfl
          · exact hacc c h2
          · simpa using hbr
      | cons c1 rest =>
        simp only [splitlinesChars] at hl
        by_cases hcr : c0 = '\r' ∧ c1 = '\n'
        · rw [if_pos hcr] at hl
          rcases List.mem_cons.mp hl with rfl | hl2
          · exact hacc c (by simpa using hc)
          · refine ih rest [] (by simp at hlen; omega) (by simp) l hl2 c hc
        · rw [if_neg hcr] at hl
          by_cases hbr : isLineBreakChar c0 = true
          · rw [if_pos hbr] at hl
            rcases List.mem_cons.mp hl with rfl | hl2
            · exact hacc c (by simpa using hc)
            · refine ih (c1 :: rest) [] (by simp at hlen ⊢; omega) (by simp) l hl2 c hc
          · rw [if_neg hbr] at hl
            refine ih (c1 :: rest) (c0 :: acc) (by simp at hlen ⊢; omega) ?_ l hl c hc
            intro x hx
            rcases List.mem_cons.mp hx with rfl | hx2
            · simpa using hbr
            · exact hacc x hx2

theorem pySplitlines_no_nl {md l : String} (h : l ∈ pySplitlines md) : '\n' ∉ l.data := by
  intro hc
  have hall := splitlines_no_break md.data.length md.data [] (Nat.le_refl _) (by simp)
    l h '\n' hc
  exact absurd hall (by decide)

theorem scan_eq_scanB :
    ∀ (fuel : Nat) (lines : List String) (inCode : Bool) (buf : List String),
      lines.length ≤ fuel → scan lines inCode buf = scanB fuel lines inCode buf := by
  intro fuel
  induction fuel with
  | zero =>
    intro lines inCode buf hlen
    have hnil : lines = [] := List.eq_nil_of_length_eq_zero (Nat.le_zero.mp hlen)
    rw [hnil, scan_nil]
    rfl
  | succ n ih =>
    intro lines inCode buf hlen
    cases lines with
    | nil => rw [scan_nil]; rfl
    | cons l rest =>
      have hlen' : rest.length ≤ n := by simp at hlen; omega
      cases inCode with
      | true =>
        by_cases hf : isFenceLine l = true
        · rw [scan_close _ _ hf, ih rest false [] hlen']
          simp [scanB, hf]
        · have hf' : isFenceLine l = false := by simpa using hf
          rw [scan_code_line _ _ hf', ih rest true (buf ++ [l]) hlen']
          simp [scanB, hf']
      | false =>
        by_cases hf : isFenceLine l = true
        · rw [scan_open _ _ hf, ih rest true buf hlen']
          simp [scanB, hf]
        · have hf' : isFenceLine l = false := by simpa using hf
          by_cases hb : isBlankLine l = true
          · rw [scan_blank _ _ hf' hb, ih rest false buf hlen']
            simp [scanB, hf', hb]
          · have hb' : isBlankLine l = false := by simpa using hb
            by_cases hs : isSepLine l = true
            · rw [scan_sep _ _ hf' hb' hs, ih rest false buf hlen']
              simp [scanB, hf', hb', hs]
            · have hs' : isSepLine l = false := by simpa using hs
              by_cases hh : isHeadingLine l = true
              · rw [scan_heading _ _ hf' hb' hs' hh, ih rest false buf hlen']
                simp [scanB, hf', hb', hs', hh]
              · have hh' : isHeadingLine l = false := by simpa using hh
                by_cases hli : isListItem l = true
                · rw [scan_list _ _ hf' hb' hs' hh' hli,
                    ih (rest.dropWhile isListItem) false buf
                      (Nat.le_trans (List.Sublist.length_le (List.dropWhile_sublist _)) hlen')]
                  simp [scanB, hf', hb', hs', hh', hli]
                · have hli' : isListItem l = false := by simpa using hli
                  rw [scan_para _ _ hf' hb' hs' hh' hli',
                    ih (rest.dropWhile (fun x => ! isParaBreak x)) false buf
                      (Nat.le_trans (List.Sublist.length_le (List.dropWhile_sublist _)) hlen')]
                  simp [scanB, hf', hb', hs', hh', hli']

theorem parseLines_eval (lines : List String) :
    parseLines lines = scanB lines.length lines false [] :=
  scan_eq_scanB lines.length lines false [] (Nat.le_refl _)

theorem parse_markdown_eval (md : String) :
    parse_markdown md = scanB (pySplitlines md).length (pySplitlines md) false [] :=
  scan_eq_scanB _ _ false [] (Nat.le_refl _)

theorem rstripS_idem (s : String) : rstripS (rstripS s) = rstripS s :=
  congrArg String.mk (rstrip_idem s.data)

theorem scan_inv (n : Nat) :
    ∀ (lines : List String), lines.length ≤ n → ∀ (inCode : Bool) (buf : List String),
      ∀ b ∈ scan lines inCode buf, blockInv b := by
  induction n with
  | zero =>
    intro lines hlen inCode buf b hb
    rw [List.eq_nil_of_length_eq_zero (Nat.le_zero.mp hlen), scan_nil] at hb
    simp at hb
  | succ n ih =>
    intro lines hlen inCode buf b hb
    cases lines with
    | nil => rw [scan_nil] at hb; simp at hb
    | cons l rest =>
      have hlen' : rest.length ≤ n := by simp at hlen; omega
      cases inCode with
      | true =>
        by_cases hf : isFenceLine l = true
        · rw [scan_close _ _ hf] at hb
          rcases List.mem_cons.mp hb with rfl | hb2
          · show rstripS (rstripS (joinNl buf)) = rstripS (joinNl buf)
            exact rstripS_idem _
          · exact ih rest hlen' false [] b hb2
        · rw [scan_code_line _ _ (by simpa using hf)] at hb
          exact ih rest hlen' true (buf ++ [l]) b hb
      | false =>
        by_cases hf : isFenceLine l = true
        · rw [scan_open _ _ hf] at hb
          exact ih rest hlen' true buf b hb
        · have hf' : isFenceLine l = false := by simpa using hf
          by_cases hbl : isBlankLine l = true
          · rw [scan_blank _ _ hf' hbl] at hb
            exact ih rest hlen' false buf b hb
          · have hbl' : isBlankLine l = false := by simpa using hbl
            by_cases hs : isSepLine l = true
            · rw [scan_sep _ _ hf' hbl' hs] at hb
              rcases List.mem_cons.mp hb with rfl | hb2
              · trivial
              · exact ih rest hlen' false buf b hb2
            · have hs' : isSepLine l = false := by simpa using hs
              by_cases hh : isHeadingLine l = true
              · rw [scan_heading _ _ hf' hbl' hs' hh] at hb
                rcases List.mem_cons.mp hb with rfl | hb2
                · exact ⟨(isHeadingLine_parts hh).1, (isHeadingLine_parts hh).2.1⟩
                · exact ih rest hlen' false buf b hb2
              · have hh' : isHeadingLine l = false := by simpa using hh
                by_cases hli : isListItem l = true
                · rw [scan_list _ _ hf' hbl' hs' hh' hli] at hb
                  rcases List.mem_cons.mp hb with rfl | hb2
                  · simp [blockInv]
                  · exact ih (rest.dropWhile isListItem)
                      (Nat.le_trans (List.Sublist.length_le (List.dropWhile_sublist _)) hlen')
                      false buf b hb2
                · rw [scan_para _ _ hf' hbl' hs' hh' (by simpa using hli)] at hb
                  rcases List.mem_cons.mp hb with rfl | hb2
                  · trivial
                  · exact ih (rest.dropWhile (fun x => ! isParaBreak x))
                      (Nat.le_trans (List.Sublist.length_le (List.dropWhile_sublist _)) hlen')
                      false buf b hb2

/-! Stripping is the identity on an assembled paragraph text. -/

theorem joinSp_ne_empty :
    ∀ parts : List String, parts ≠ [] → (∀ s ∈ parts, s ≠ "") → joinSp parts ≠ "" := by
  intro parts
  induction parts with
  | nil => intro h _; exact absurd rfl h
  | cons s rest ih =>
    intro _ hne
    cases rest with
    | nil => exact hne s (by simp)
    | cons s2 rest2 =>
      intro hq
      have hd : (joinSp (s :: s2 :: rest2)).data
          = s.data ++ ' ' :: (joinSp (s2 :: rest2)).data := by
        show (s ++ " " ++ joinSp (s2 :: rest2)).data = _
        simp [String.data_append]
      rw [hq] at hd
      simp at hd

theorem strip_fixed_head {s : String} (h : stripChars s.data = s.data) :
    ∀ c ∈ s.data.head?, isPySpace c = false := by
  intro c hc
  match hd : s.data with
  | [] => rw [hd] at hc; simp at hc
  | d :: t =>
    rw [hd] at hc
    simp at hc
    subst hc
    rw [hd] at h
    exact strip_head_false h

theorem strip_fixed_last {s : String} (h : stripChars s.data = s.data) :
    ∀ c ∈ s.data.getLast?, isPySpace c = false := by
  intro c hc
  have h2 : (stripChars s.data).getLast? = some c := by
    rw [h]
    exact Option.mem_def.mp hc
  exact strip_last_false h2

theorem joinSp_data_head (s : String) (rest : List String) (hs : s ≠ "") :
    (joinSp (s :: rest)).data.head? = s.data.head? := by
  cases rest with
  | nil => rfl
  | cons s2 rest2 =>
    have hd : (joinSp (s :: s2 :: rest2)).data
        = s.data ++ ' ' :: (joinSp (s2 :: rest2)).data := by
      show (s ++ " " ++ joinSp (s2 :: rest2)).data = _
      simp [String.data_append]
    rw [hd]
    match hsd : s.data with
    | [] => exact absurd (String.ext (by rw [hsd])) hs
    | c :: t => simp

theorem joinSp_last_not_space :
    ∀ parts : List String,
      (∀ s ∈ parts, ∀ c ∈ s.data.getLast?, isPySpace c = false) →
      (∀ s ∈ parts, s ≠ "") →
      ∀ c ∈ (joinSp parts).data.getLast?, isPySpace c = false := by
  intro parts
  induction parts with
  | nil => intro _ _ c hc; simp [joinSp] at hc
  | cons s rest ih =>
    intro hlast hne c hc
    cases rest with
    | nil => exact hlast s (by simp) c hc
    | cons s2 rest2 =>
      have hjne : joinSp (s2 :: rest2) ≠ "" :=
        joinSp_ne_empty _ (by simp) (fun x hx => hne x (by simp [hx]))
      have hne2 : (joinSp (s2 :: rest2)).data ≠ [] :=
        fun hq => hjne (String.ext (by rw [hq]))
      have hdata : (joinSp (s :: s2 :: rest2)).data
          = s.data ++ ' ' :: (joinSp (s2 :: rest2)).data := by
        show (s ++ " " ++ joinSp (s2 :: rest2)).data = _
        simp [String.data_append]
      rw [hdata, List.getLast?_append] at hc
      match hx : (joinSp (s2 :: rest2)).data with
      | [] => exact absurd hx hne2
      | d :: t =>
        rw [hx, List.getLast?_cons_cons] at hc
        cases hgl : (d :: t).getLast? with
        | none => rw [List.getLast?_eq_none_iff] at hgl; simp at hgl
        | some e =>
          rw [hgl] at hc
          simp at hc
          rw [← hc]
          refine ih (fun x hx2 => hlast x (by simp [hx2]))
            (fun x hx2 => hne x (by simp [hx2])) e ?_
          rw [hx, hgl]
          simp

theorem strip_joinSp_noop (parts : List String) (hne : parts ≠ [])
    (hfix : ∀ s ∈ parts, stripChars s.data = s.data)
    (hnemp : ∀ s ∈ parts, s ≠ "") :
    stripS (joinSp parts) = joinSp parts := by
  refine String.ext ?_
  show stripChars (joinSp parts).data = (joinSp parts).data
  refine strip_noop ?_ ?_
  · cases parts with
    | nil => exact absurd rfl hne
    | cons s rest =>
      intro c hc
      rw [joinSp_data_head s rest (hnemp s (by simp))] at hc
      exact strip_fixed_head (hfix s (by simp)) c hc
  · exact joinSp_last_not_space parts (fun s hs => strip_fixed_last (hfix s hs)) hnemp

theorem stripS_ne_empty {l : String} (h : isBlankLine l = false) : stripS l ≠ "" := by
  intro hq
  unfold isBlankLine at h
  have hdat : stripChars l.data = [] := by
    have := congrArg String.data hq
    simpa using this
  rw [hdat] at h
  simp at h

theorem paraBreak_false_parts {l : String} (h : isParaBreak l = false) :
    isBlankLine l = false ∧ isFenceLine l = false ∧ isHeadingLine l = false ∧
      isListItem l = false ∧ isSepLine l = false := by
  unfold isParaBreak at h
  simp only [Bool.or_eq_false_iff] at h
  obtain ⟨⟨⟨⟨h1, h2⟩, h3⟩, h4⟩, h5⟩ := h
  exact ⟨h1, h2, h3, h4, h5⟩

/-! Claim theorems. -/

/-- C1: an input whose physical lines are a fence-free prefix, an opening
fence line, fence-free interior lines, a closing fence line and a
remainder parses to the prefix's blocks (none of which is a code block),
then exactly one `code` block for that fence whose content is the interior
lines joined by newlines with trailing whitespace removed, then the
remainder's blocks; and no line of that content is a fence-delimiter
line. -/
theorem parse_fenced_block (md openL closeL : String) (pre interior post : List String)
    (hsplit : pySplitlines md = pre ++ openL :: (interior ++ closeL :: post))
    (hpre : ∀ l ∈ pre, isFenceLine l = false)
    (hopen : isFenceLine openL = true) (hclose : isFenceLine closeL = true)
    (hint : ∀ l ∈ interior, isFenceLine l = false) :
    parse_markdown md
      = parseLines pre ++ Block.code (rstripS (joinNl interior)) :: parseLines post
    ∧ (∀ b ∈ parseLines pre, ∀ c, b ≠ Block.code c)
    ∧ ∀ s ∈ contentLines (rstripS (joinNl interior)), isFenceLine s = false := by
  have hnl : ∀ l ∈ interior, '\n' ∉ l.data := by
    intro l hl
    refine pySplitlines_no_nl (show l ∈ pySplitlines md from ?_)
    rw [hsplit]
    simp [hl]
  refine ⟨?_, ?_, ?_⟩
  · unfold parse_markdown parseLines
    rw [hsplit,
      scan_split_at_fence openL (interior ++ closeL :: post) hopen pre.length pre
        (Nat.le_refl _) hpre]
    congr 1
    rw [scan_open _ _ hopen, scan_code_run closeL post hclose interior [] hint,
      List.nil_append]
  · intro b hb c
    exact scan_no_fence_no_code pre.length pre (Nat.le_refl _) [] hpre b hb c
  · exact contentLines_code_fence_free interior hint hnl

/-- Witness for C1 at a concrete three-line fence with surrounding text,
and at interior content ending in a no-break space, which `rstrip()`
removes. -/
theorem parse_fenced_block_witness :
    parse_markdown "p\n```\nint x;  \n```\nq"
      = [Block.para "p", Block.code "int x;", Block.para "q"]
    ∧ parse_markdown "```\nx\u00A0\n```" = [Block.code "x"] := by
  constructor
  · have h := parse_fenced_block "p\n```\nint x;  \n```\nq" "```" "```"
      ["p"] ["int x;  "] ["q"] (by decide) (by decide) (by decide) (by decide) (by decide)
    rw [h.1]
    simp only [parseLines_eval]
    decide
  · have h := parse_fenced_block "```\nx\u00A0\n```" "```" "```"
      [] ["x\u00A0"] [] (by decide) (by decide) (by decide) (by decide) (by decide)
    rw [h.1]
    simp only [parseLines_eval]
    decide

/-- C2: when a fence is opened and never closed, the buffered lines are
silently lost: the parse is exactly the fence-free prefix's blocks, and
no code block is emitted at all for the open buffer. -/
theorem parse_unterminated_fence (md openL : String) (pre rest : List String)
    (hsplit : pySplitlines md = pre ++ openL :: rest)
    (hpre : ∀ l ∈ pre, isFenceLine l = false)
    (hopen : isFenceLine openL = true)
    (hrest : ∀ l ∈ rest, isFenceLine l = false) :
    parse_markdown md = parseLines pre
    ∧ ∀ b ∈ parseLines pre, ∀ c, b ≠ Block.code c := by
  refine ⟨?_, ?_⟩
  · unfold parse_markdown parseLines
    rw [hsplit, scan_split_at_fence openL rest hopen pre.length pre (Nat.le_refl _) hpre,
      scan_open _ _ hopen, scan_unterminated rest [] hrest, List.append_nil]
  · intro b hb c
    exact scan_no_fence_no_code pre.length pre (Nat.le_refl _) [] hpre b hb c

/-- Witness for C2: the opened fence swallows the rest of the input. -/
theorem parse_unterminated_fence_witness :
    parse_markdown "a\n```\nlost" = [Block.para "a"] := by
  have h := parse_unterminated_fence "a\n```\nlost" "```" ["a"] ["lost"]
    (by decide) (by decide) (by decide) (by decide)
  rw [h.1, parseLines_eval]
  decide

/-- C3: a leading non-blank line matching no other rule starts a
paragraph; following lines are accumulated (each trimmed, joined with
single spaces) until the first blank, fence, heading, list-item or
separator line, which is not consumed but re-examined; and the concrete
lines Hello, world. give one paragraph with text Hello world. -/
theorem parse_paragraph_run (md l : String) (rest : List String)
    (hsplit : pySplitlines md = l :: rest)
    (h : isParaBreak l = false) :
    parse_markdown md
      = Block.para (joinSp (stripS l ::
          (rest.takeWhile (fun x => ! isParaBreak x)).map stripS))
        :: parseLines (rest.dropWhile (fun x => ! isParaBreak x))
    ∧ parse_markdown "Hello\nworld." = [Block.para "Hello world."] := by
  obtain ⟨hb, hf, hh, hli, hsep⟩ := paraBreak_false_parts h
  constructor
  · have hfix : ∀ s ∈ (stripS l ::
        (rest.takeWhile (fun x => ! isParaBreak x)).map stripS),
        stripChars s.data = s.data := by
      intro s hs
      rcases List.mem_cons.mp hs with rfl | hs2
      · exact strip_idem l.data
      · obtain ⟨y, _, rfl⟩ := List.mem_map.mp hs2
        exact strip_idem y.data
    have hnemp : ∀ s ∈ (stripS l ::
        (rest.takeWhile (fun x => ! isParaBreak x)).map stripS), s ≠ "" := by
      intro s hs
      rcases List.mem_cons.mp hs with rfl | hs2
      · exact stripS_ne_empty hb
      · obtain ⟨y, hy, rfl⟩ := List.mem_map.mp hs2
        have hy' : isParaBreak y = false := by simpa using List.mem_takeWhile_imp hy
        exact stripS_ne_empty (paraBreak_false_parts hy').1
    have hp := strip_joinSp_noop _ (by simp) hfix hnemp
    unfold parse_markdown parseLines
    rw [hsplit, scan_para rest [] hf hb hsep hh hli, hp]
  · rw [parse_markdown_eval]
    decide

/-- Witness for C3 at the spec's concrete two-line paragraph, and at an
accumulation stopped by a line holding only a no-break space, which is
blank per Python's `strip()`. -/
theorem parse_paragraph_run_witness :
    parse_markdown "Hello\nworld." = [Block.para "Hello world."]
    ∧ parse_markdown "a\n\u00A0\nb" = [Block.para "a", Block.para "b"] := by
  constructor
  · have h := parse_paragraph_run "Hello\nworld." "Hello" ["world."] (by decide) (by decide)
    rw [h.1]
    simp only [parseLines_eval]
    decide
  · have h := parse_paragraph_run "a\n\u00A0\nb" "a" ["\u00A0", "b"] (by decide) (by decide)
    rw [h.1]
    simp only [parseLines_eval]
    decide

/-- C4: a leading list-marker line starts a list run: the maximal prefix
of marker lines becomes one list block, items in order with markers
stripped and trailing whitespace trimmed (marker style not preserved),
and the first non-matching line is left for the next scan step. -/
theorem parse_list_run (md l : String) (rest : List String)
    (hsplit : pySplitlines md = l :: rest)
    (h : isListItem l = true) :
    parse_markdown md
      = Block.list (listItemText l :: (rest.takeWhile isListItem).map listItemText)
        :: parseLines (rest.dropWhile isListItem) := by
  have hf : isFenceLine l = false := listItem_not_fence h
  have hb : isBlankLine l = false := listItem_not_blank h
  have hs : isSepLine l = false := listItem_not_sep h
  have hh : isHeadingLine l = false := by
    by_cases hq : isHeadingLine l = true
    · rw [heading_not_listItem hq] at h
      exact absurd h (by decide)
    · simpa using hq
  unfold parse_markdown parseLines
  rw [hsplit, scan_list rest [] hf hb hs hh h]

/-- Witness for C4 at the spec's concrete mixed-marker run, at an item
with a trailing no-break space (trimmed by `rstrip()`), and at an
Arabic-Indic numeric marker (a digit per `\d`). -/
theorem parse_list_run_witness :
    parse_markdown "- a\n- b\n1. c" = [Block.list ["a", "b", "c"]]
    ∧ parse_markdown "- a\u00A0" = [Block.list ["a"]]
    ∧ parse_markdown "\u0661. c" = [Block.list ["c"]] := by
  refine ⟨?_, ?_, ?_⟩
  · have h := parse_list_run "- a\n- b\n1. c" "- a" ["- b", "1. c"] (by decide) (by decide)
    rw [h]
    simp only [parseLines_eval]
    decide
  · have h := parse_list_run "- a\u00A0" "- a\u00A0" [] (by decide) (by decide)
    rw [h]
    simp only [parseLines_eval]
    decide
  · have h := parse_list_run "\u0661. c" "\u0661. c" [] (by decide) (by decide)
    rw [h]
    simp only [parseLines_eval]
    decide

/-- C5: a leading heading line (1..6 hashes then whitespace) yields one
heading block whose level is the count of leading hash characters, which
lies between 1 and 6, with the remaining text. -/
theorem parse_heading_line (md l : String) (rest : List String)
    (hsplit : pySplitlines md = l :: rest)
    (h : isHeadingLine l = true) :
    parse_markdown md
      = Block.heading (leadingHashes l) (headingText l) :: parseLines rest
    ∧ 1 ≤ leadingHashes l ∧ leadingHashes l ≤ 6 := by
  refine ⟨?_, (isHeadingLine_parts h).1, (isHeadingLine_parts h).2.1⟩
  unfold parse_markdown parseLines
  rw [hsplit, scan_heading rest [] (heading_not_fence h) (heading_not_blank h)
    (heading_not_sep h) h]

/-- Witness for C5 at the spec's concrete headings, at a heading whose
hash is followed by a no-break space (whitespace per `\s`), and at a
heading text with a trailing no-break space (trimmed by `strip()`). -/
theorem parse_heading_line_witness :
    parse_markdown "# Title" = [Block.heading 1 "Title"]
    ∧ parse_markdown "###### Deep" = [Block.heading 6 "Deep"]
    ∧ parse_markdown "#\u00A0Title" = [Block.heading 1 "Title"]
    ∧ parse_markdown "# Title\u00A0" = [Block.heading 1 "Title"] := by
  refine ⟨?_, ?_, ?_, ?_⟩
  · have h := parse_heading_line "# Title" "# Title" [] (by decide) (by decide)
    rw [h.1]
    simp only [parseLines_eval]
    decide
  · have h := parse_heading_line "###### Deep" "###### Deep" [] (by decide) (by decide)
    rw [h.1]
    simp only [parseLines_eval]
    decide
  · have h := parse_heading_line "#\u00A0Title" "#\u00A0Title" [] (by decide) (by decide)
    rw [h.1]
    simp only [parseLines_eval]
    decide
  · have h := parse_heading_line "# Title\u00A0" "# Title\u00A0" [] (by decide) (by decide)
    rw [h.1]
    simp only [parseLines_eval]
    decide

/-- C6: a leading line whose trimmed content is three or more hyphens and
nothing else yields exactly one separator block, while a two-hyphen line
yields no separator and falls through to the paragraph rule. -/
theorem parse_separator_line (md l : String) (rest : List String)
    (hsplit : pySplitlines md = l :: rest)
    (h : isSepLine l = true) :
    parse_markdown md = Block.separator :: parseLines rest
    ∧ parse_markdown "--" = [Block.para "--"] := by
  refine ⟨?_, ?_⟩
  · unfold parse_markdown parseLines
    rw [hsplit, scan_sep rest [] (sep_not_fence h) (sep_not_blank h) h]
  · rw [parse_markdown_eval]
    decide

/-- Witness for C6 at the spec's concrete separator lines and at a
separator preceded by a no-break space, which `strip()` removes. -/
theorem parse_separator_line_witness :
    parse_markdown "---" = [Block.separator]
    ∧ parse_markdown "-------" = [Block.separator]
    ∧ parse_markdown "\u00A0---" = [Block.separator]
    ∧ parse_markdown "--" = [Block.para "--"] := by
  refine ⟨?_, ?_, ?_, ?_⟩
  · have h := parse_separator_line "---" "---" [] (by decide) (by decide)
    rw [h.1]
    simp only [parseLines_eval]
    decide
  · have h := parse_separator_line "-------" "-------" [] (by decide) (by decide)
    rw [h.1]
    simp only [parseLines_eval]
    decide
  · have h := parse_separator_line "\u00A0---" "\u00A0---" [] (by decide) (by decide)
    rw [h.1]
    simp only [parseLines_eval]
    decide
  · exact (parse_separator_line "---" "---" [] (by decide) (by decide)).2

/-- C7: rendering a document of one H1 heading, one paragraph, one
3-item list, one non-empty code block and one separator yields, in this
order: one H1 element, one body element, three bulleted body elements,
one spacer, one preformatted code element, one spacer; and an empty code
block renders to no element at all. -/
theorem render_story_order (t p a b c cd : String) (hcd : cd ≠ "") :
    buildStory [Block.heading 1 t, Block.para p, Block.list [a, b, c],
        Block.code cd, Block.separator]
      = [Elem.par (escape t) PStyle.h1,
         Elem.par (removeBackticks (escape p)) PStyle.body,
         Elem.par ("• " ++ removeBackticks (escape a)) PStyle.body,
         Elem.par ("• " ++ removeBackticks (escape b)) PStyle.body,
         Elem.par ("• " ++ removeBackticks (escape c)) PStyle.body,
         Elem.spacer 1 2,
         Elem.pre cd PStyle.codeStyle,
         Elem.spacer 1 8]
    ∧ buildStory [Block.code ""] = [] := by
  constructor
  · simp [buildStory, renderBlock, headingStyle, hcd]
  · simp [buildStory, renderBlock]

/-- Witness for C7 at concrete texts. -/
theorem render_story_order_witness :
    buildStory [Block.heading 1 "T", Block.para "p", Block.list ["a", "b", "c"],
        Block.code "x", Block.separator]
      = [Elem.par "T" PStyle.h1, Elem.par "p" PStyle.body,
         Elem.par "• a" PStyle.body, Elem.par "• b" PStyle.body,
         Elem.par "• c" PStyle.body, Elem.spacer 1 2,
         Elem.pre "x" PStyle.codeStyle, Elem.spacer 1 8]
    ∧ buildStory [Block.code ""] = [] := by
  have h := render_story_order "T" "p" "a" "b" "c" "x" (by decide)
  constructor
  · rw [h.1]
    decide
  · exact h.2

/-- C8: paragraph text and each list item render as the block text
escaped for the layout markup and with every backtick removed; each list
item is prefixed with the bullet glyph, and exactly one spacer follows
the full list.  The escape map sends the three markup characters to
their entity references. -/
theorem render_para_and_list (text : String) (items : List String) :
    renderBlock (Block.para text)
      = [Elem.par (removeBackticks (escape text)) PStyle.body]
    ∧ renderBlock (Block.list items)
      = items.map (fun it => Elem.par ("• " ++ removeBackticks (escape it)) PStyle.body)
          ++ [Elem.spacer 1 2]
    ∧ escape "&<>" = "&amp;&lt;&gt;" := by
  exact ⟨rfl, rfl, by decide⟩

/-- C9: `main` exits 2 with the usage line on a wrong argument count
(doing nothing else), exits 1 printing a message naming the missing input
path when the count is right but the input does not exist (doing nothing
else), and otherwise runs the build, prints a line naming the output path
and exits 0. -/
theorem main_outcomes (argv : List String) (ex : Bool) :
    (argv.length ≠ 3 → mainRun argv ex = ⟨2, [usageLine], false⟩)
    ∧ (∀ prog inp outp, argv = [prog, inp, outp] → ex = false →
        mainRun argv ex = ⟨1, ["Input not found: " ++ inp], false⟩)
    ∧ (∀ prog inp outp, argv = [prog, inp, outp] → ex = true →
        mainRun argv ex = ⟨0, ["Generated: " ++ outp], true⟩) := by
  refine ⟨?_, ?_, ?_⟩
  · intro h
    rcases argv with _ | ⟨a, _ | ⟨b, _ | ⟨c, _ | ⟨d, rest⟩⟩⟩⟩
    · rfl
    · rfl
    · rfl
    · exact absurd rfl h
    · rfl
  · intro prog inp outp h hex
    subst h
    subst hex
    rfl
  · intro prog inp outp h hex
    subst h
    subst hex
    rfl

/-- Witness for C9 at concrete argument vectors. -/
theorem main_outcomes_witness :
    mainRun ["generate_pdf.py"] true = ⟨2, [usageLine], false⟩
    ∧ mainRun ["generate_pdf.py", "in.md", "out.pdf"] false
        = ⟨1, ["Input not found: in.md"], false⟩
    ∧ mainRun ["generate_pdf.py", "in.md", "out.pdf"] true
        = ⟨0, ["Generated: out.pdf"], true⟩ := by
  refine ⟨?_, ?_, ?_⟩
  · exact (main_outcomes ["generate_pdf.py"] true).1 (by decide)
  · have h := (main_outcomes ["generate_pdf.py", "in.md", "out.pdf"] false).2.1
      "generate_pdf.py" "in.md" "out.pdf" rfl rfl
    rw [h]
    decide
  · have h := (main_outcomes ["generate_pdf.py", "in.md", "out.pdf"] true).2.2
      "generate_pdf.py" "in.md" "out.pdf" rfl rfl
    rw [h]
    decide

/-- C10: every block `parse_markdown` produces satisfies the block
invariants: heading levels lie in 1..6, list blocks have at least one
item, and code content carries no trailing whitespace; that every block
is one of the five kinds is enforced by the `Block` type, which has
exactly those five constructors. -/
theorem parse_markdown_invariants (md : String) :
    ∀ b ∈ parse_markdown md, blockInv b := by
  intro b hb
  exact scan_inv (pySplitlines md).length (pySplitlines md) (Nat.le_refl _) false [] b hb

/-- Witness for C10 on a heading block and a code block of concrete
parses. -/
theorem parse_markdown_invariants_witness :
    blockInv (Block.heading 1 "Title") ∧ blockInv (Block.code "int x;") := by
  constructor
  · exact parse_markdown_invariants "# Title" (Block.heading 1 "Title")
      (by rw [parse_markdown_eval]; decide)
  · exact parse_markdown_invariants "```\nint x;  \n```" (Block.code "int x;")
      (by rw [parse_markdown_eval]; decide)
